import Mathlib

/-!
Shallow embedding of the SQL access-control and validation core of the
analytique repository: the SQL safety validator (`validation.ts`), the
permission policy (web `table-permissions.ts` and the agent-side helpers in
`tools.ts`), the table extractor, the access-controlled catalog reader, the
guarded query executor, the tool-call dispatcher, and the streaming
orchestrator (`analyst.ts` together with the chat API route).

Strings are modelled over `List Char`; the backing catalog and the language
model are abstracted as explicit inputs (pure values / scripts), since the
core treats both as opaque collaborators.
-/

set_option maxRecDepth 100000

namespace Analytique

/-- JavaScript word character (`\w` = `[A-Za-z0-9_]`). -/
def isWordChar (c : Char) : Bool :=
  c.isAlpha || c.isDigit || c = '_'

/-- ASCII whitespace as matched by the JavaScript `\s` class (restricted to
the ASCII range; the SQL text handled by the core is ASCII). -/
def isSpaceChar (c : Char) : Bool :=
  c = ' ' || c = '\t' || c = '\n' || c = '\r' || c = '\x0b' || c = '\x0c'

/-- If `pat` is a literal prefix of `s`, return the remainder of `s`. -/
def stripLit : List Char → List Char → Option (List Char)
  | [], s => some s
  | _ :: _, [] => none
  | k :: ks, c :: cs => if c = k then stripLit ks cs else none

/-- Index of the first occurrence of character `c`, if any (JS `indexOf`). -/
def firstIdxChar (c : Char) : List Char → Option Nat
  | [] => none
  | d :: ds => if d = c then some 0 else (firstIdxChar c ds).map (· + 1)

/-- Whether `pat` occurs as a prefix of `s` (boolean form). -/
def startsWithLit (pat s : List Char) : Bool :=
  (stripLit pat s).isSome

/-- Whether `pat` occurs as a substring of `s` (JS `includes`). -/
def containsLit (pat : List Char) : List Char → Bool
  | [] => startsWithLit pat []
  | c :: cs => startsWithLit pat (c :: cs) || containsLit pat cs

/-- Index of the first occurrence of substring `pat` (JS `indexOf`). -/
def firstIdxLit (pat : List Char) : List Char → Option Nat
  | [] => if startsWithLit pat [] then some 0 else none
  | c :: cs =>
    if startsWithLit pat (c :: cs) then some 0
    else (firstIdxLit pat cs).map (· + 1)

/-- JS word boundary on the right of a keyword: the rest of the input is
empty or starts with a non-word character. -/
def boundRight : List Char → Bool
  | [] => true
  | c :: _ => !isWordChar c

/-- The prefix `pre` of the input satisfies the regex alternative
`(^|;\s*)` ending at the current position: `pre` is empty, or ends with a
semicolon followed only by whitespace. -/
def leadOK (pre : List Char) : Bool :=
  decide (pre = []) ||
    (match pre.reverse.dropWhile isSpaceChar with
     | c :: _ => c = ';'
     | [] => false)

/-- Model of `RegExp (^|;\s*)KW\b . test(s)`: some position of `s` carries the
statement-leading keyword `kw`.  A regex `test` is satisfied exactly when a
match exists at some position, so the model quantifies over all splits. -/
def hasLeadingKw (kw s : List Char) : Bool :=
  (List.range (s.length + 1)).any fun p =>
    leadOK (s.take p) &&
      (match stripLit kw (s.drop p) with
       | some rest => boundRight rest
       | none => false)

/-! ## `packages/agent/src/validation.ts` -/

/-- The `SQLValidationResult` of `validation.ts`. -/
structure SQLValidationResult where
  valid : Bool
  error : Option String := none
  warnings : Option (List String) := none
  deriving Repr, DecidableEq

/-- The `BLOCKED_KEYWORDS` of `validation.ts`. -/
def BLOCKED_KEYWORDS : List String :=
  ["INSERT", "UPDATE", "DELETE", "DROP", "CREATE", "ALTER", "TRUNCATE",
   "GRANT", "REVOKE", "EXECUTE", "EXEC", "CALL"]

/-- The `WARNING_KEYWORDS` of `validation.ts`. -/
def WARNING_KEYWORDS : List String :=
  ["TRUNCATE", "CASCADE", "FORCE"]

/-- Model of `trim()`: drop whitespace from both ends. -/
def trimChars (l : List Char) : List Char :=
  ((l.dropWhile Char.isWhitespace).reverse.dropWhile Char.isWhitespace).reverse

/-- The normalization performed by `validateSQL`:
`sql.toUpperCase().trim()` (ASCII case mapping). -/
def normalizeSQL (sql : String) : List Char :=
  trimChars (sql.data.map Char.toUpper)

/-- Code condition for the multi-statement rejection:
`ns.includes(';') && ns.indexOf(';') < ns.length - 1`. -/
def multiStmtHit (ns : List Char) : Bool :=
  match firstIdxChar ';' ns with
  | some k => decide (k < ns.length - 1)
  | none => false

/-- Code condition for the comment warning:
`ns.includes('--') && ns.indexOf('--') > 0`. -/
def commentHit (ns : List Char) : Bool :=
  match firstIdxLit ['-', '-'] ns with
  | some k => decide (0 < k)
  | none => false

/-- The non-fatal warnings accumulated by `validateSQL` on the normalized
text, in push order: the comment warning (pushed before the multi-statement
check in the source, observable only on the valid path), the risk keywords,
the missing LIMIT/TOP warning, the `SELECT *` warning. -/
def collectWarnings (ns : List Char) : List String :=
  (if commentHit ns then
    ["SQL contains comment syntax which may indicate injection attempt"]
  else [])
  ++ (WARNING_KEYWORDS.filter (fun kw => containsLit kw.data ns)).map
    (fun kw => "Query contains '" ++ kw ++ "' which may indicate risky operation")
  ++ (if !(containsLit "LIMIT".data ns) && !(containsLit "TOP".data ns) then
    ["Query has no LIMIT clause. Consider adding one for large tables."]
  else [])
  ++ (if containsLit "SELECT *".data ns then
    ["Using SELECT * may return more data than needed"]
  else [])

/-- Model of `validateSQL` on the normalized text, translated clause by clause:
blocked statement-leading keywords, the multi-statement check, the
SELECT/WITH shape check, then the non-fatal warnings. -/
def validateNS (ns : List Char) : SQLValidationResult :=
  match BLOCKED_KEYWORDS.find? (fun kw => hasLeadingKw kw.data ns) with
  | some kw =>
    { valid := false
      error := some ("SQL contains blocked keyword: " ++ kw ++
        ". Only SELECT queries are allowed.") }
  | none =>
    if multiStmtHit ns then
      { valid := false, error := some "Multiple SQL statements are not allowed" }
    else if !(startsWithLit "SELECT".data ns || startsWithLit "WITH".data ns) then
      { valid := false, error := some "Query must start with SELECT or WITH (CTE)" }
    else
      { valid := true
        warnings := if collectWarnings ns = [] then none else some (collectWarnings ns) }

/-- Model of `validateSQL` of `validation.ts`. -/
def validateSQL (sql : String) : SQLValidationResult :=
  validateNS (normalizeSQL sql)

/-- Model of `sanitizeSQL` of `validation.ts`: trim, then strip trailing semicolons
(re-trimming after each strip). -/
def sanitizeData : Nat → List Char → List Char
  | 0, s => s
  | fuel + 1, s =>
    let t := trimChars s
    match t.getLast? with
    | some ';' => sanitizeData fuel (t.dropLast)
    | _ => t

/-- Model of `sanitizeSQL` wrapper on `String` (the loop runs at most once per
character, so the fuel `length + 1` is enough). -/
def sanitizeSQL (sql : String) : String :=
  String.mk (sanitizeData (sql.length + 1) sql.data)

/-- Model of `addDefaultLimit` of `validation.ts`: textual `LIMIT` containment check
on the uppercased SQL; append ` LIMIT {n}` when absent. -/
def addDefaultLimit (sql : String) (limit : Nat := 1000) : String :=
  if !(containsLit "LIMIT".data (sql.data.map Char.toUpper)) then
    sql ++ " LIMIT " ++ toString limit
  else sql

/-! ## Permission policy data model

`TablePermission` / `TablePermissionsConfig` as in
`apps/web/src/lib/table-permissions.ts`; the agent-side type in `tools.ts`
declares the same fields minus `allowedColumns`/`description`, but the very
same runtime config value flows from the web app into the agent, so one
structure serves both modules (the agent functions simply never read
`allowedColumns`).  The optional column lists are modelled as lists with
`[]` for `undefined` (the code only ever calls `includes` and `length` on
them, which cannot distinguish the two); `updatedAt` (a `Date`) is a `Nat`
timestamp. -/

inductive AccessLevel
  | full
  | read
  | none
  deriving Repr, DecidableEq

structure TablePermission where
  table : String
  schema : String
  accessLevel : AccessLevel
  allowedColumns : List String := []
  blockedColumns : List String := []
  deriving Repr, DecidableEq

structure TablePermissionsConfig where
  defaultAccess : AccessLevel
  tables : List TablePermission
  updatedAt : Nat := 0
  deriving Repr, DecidableEq

/-! ## `apps/web/src/lib/table-permissions.ts` -/

/-- Model of `getTableAccess`: exact (`===`) lookup by table and schema name; falls
back to a synthesized permission at the config's default level. -/
def getTableAccess (config : TablePermissionsConfig) (tableName : String)
    (schemaName : String := "public") : TablePermission :=
  match config.tables.find? (fun t => t.table = tableName ∧ t.schema = schemaName) with
  | some permission => permission
  | Option.none =>
    { table := tableName, schema := schemaName, accessLevel := config.defaultAccess }

/-- Model of `canAccessTable` of `table-permissions.ts`.  (The `permission !== null`
test of the source is vacuous: `getTableAccess` always returns a value.) -/
def canAccessTable (config : TablePermissionsConfig) (tableName : String)
    (schemaName : String := "public") : Bool :=
  (getTableAccess config tableName schemaName).accessLevel ≠ AccessLevel.none

/-- Model of `canAccessColumn` of `table-permissions.ts`: table level first, then the
blocked list, then the allow list (only when non-empty). -/
def canAccessColumn (config : TablePermissionsConfig) (tableName : String)
    (columnName : String) (schemaName : String := "public") : Bool :=
  let permission := getTableAccess config tableName schemaName
  if permission.accessLevel = AccessLevel.none then false
  else if permission.blockedColumns.contains columnName then false
  else if permission.allowedColumns.length > 0 then
    permission.allowedColumns.contains columnName
  else true

/-- Model of `filterAccessibleTables` of `table-permissions.ts`. -/
def filterAccessibleTables (config : TablePermissionsConfig)
    (tables : List (String × String)) : List (String × String) :=
  tables.filter fun t => canAccessTable config t.1 t.2

/-- Model of `updateTablePermission` of `table-permissions.ts`: replace the entry at
the first exactly-matching `(table, schema)` index, or append; stamp
`updatedAt` with the current time (`now` stands for `new Date()`). -/
def updateTablePermission (config : TablePermissionsConfig)
    (permission : TablePermission) (now : Nat) : TablePermissionsConfig :=
  let newTables :=
    match config.tables.findIdx? (fun t =>
        t.table = permission.table ∧ t.schema = permission.schema) with
    | some existingIndex => config.tables.set existingIndex permission
    | Option.none => config.tables ++ [permission]
  { config with tables := newTables, updatedAt := now }

/-! ## Agent-side permission helpers and the table extractor (`tools.ts`) -/

/-- Lowercasing as used by `toLowerCase()` (ASCII). -/
def strLower (s : String) : String := String.mk (s.data.map Char.toLower)

/-- Model of `getTablePermission` inside `createSupabaseTools`: case-insensitive
lookup by table and schema name, default-synthesized otherwise. -/
def getTablePermission (permissions : TablePermissionsConfig)
    (tableName : String) (schema : String := "public") : TablePermission :=
  match permissions.tables.find? (fun t =>
      strLower t.table = strLower tableName ∧ strLower t.schema = strLower schema) with
  | some explicit => explicit
  | Option.none =>
    { table := tableName, schema := schema, accessLevel := permissions.defaultAccess }

/-- Model of `canAccessTable` inside `createSupabaseTools` (agent side). -/
def canAccessTableAgent (permissions : TablePermissionsConfig)
    (tableName : String) (schema : String := "public") : Bool :=
  (getTablePermission permissions tableName schema).accessLevel ≠ AccessLevel.none

/-- Identifier start character of the capture group `[a-z_]` under the `i`
flag: an ASCII letter or underscore. -/
def isIdentStart (c : Char) : Bool := c.isAlpha || c = '_'

/-- Parse the identifier `[a-z_][a-z0-9_]*` (case-insensitive) greedily at
the head of the input. -/
def takeIdent (s : List Char) : Option (List Char × List Char) :=
  match s with
  | [] => Option.none
  | c :: cs =>
    if isIdentStart c then
      let tl := cs.takeWhile isWordChar
      some (c :: tl, cs.dropWhile isWordChar)
    else Option.none

/-- Case-insensitive literal keyword match, returning the remainder. -/
def stripLitCI : List Char → List Char → Option (List Char)
  | [], s => some s
  | _ :: _, [] => Option.none
  | k :: ks, c :: cs => if c.toLower = k then stripLitCI ks cs else Option.none

/-- Attempt the regex `kw\s+([a-z_][a-z0-9_]*(?:\.[a-z_][a-z0-9_]*)?)` at the
current position (the `\b` on the left is handled by the caller).  Returns
the capture group and the rest of the input after the match. -/
def matchTableRef (kw s : List Char) : Option (List Char × List Char) :=
  (stripLitCI kw s).bind fun afterKw =>
    if afterKw.takeWhile isSpaceChar = [] then Option.none
    else
      (takeIdent (afterKw.dropWhile isSpaceChar)).bind fun idrest =>
        match idrest.2 with
        | '.' :: rest2 =>
          (match takeIdent rest2 with
           | some (id2, rest3) => some (idrest.1 ++ '.' :: id2, rest3)
           | Option.none => some idrest)
        | _ => some idrest

/-- One `regex.exec` loop over the whole input: scan left to right, only
trying the keyword where a word boundary precedes it (`prevWord` tracks
whether the previous character is a word character), and resume after the
end of each match, as the `lastIndex` of a global JS regex does. -/
def scanTableRefs (kw : List Char) : Nat → Bool → List Char → List (List Char)
  | 0, _, _ => []
  | _, _, [] => []
  | fuel + 1, prevWord, c :: cs =>
    if prevWord then scanTableRefs kw fuel (isWordChar c) cs
    else
      match matchTableRef kw (c :: cs) with
      | some (cap, rest) => cap :: scanTableRefs kw fuel true rest
      | Option.none => scanTableRefs kw fuel (isWordChar c) cs

/-- Model of `match[1].split('.').pop()!.toLowerCase()`: the identifier after the
last dot, lowercased. -/
def tableNameOfCapture (cap : List Char) : String :=
  match (cap.splitOn '.').getLast? with
  | some part => String.mk (part.map Char.toLower)
  | Option.none => ""

/-- Deduplicating accumulation in first-appearance order
(`if (!tables.includes(tableName)) tables.push(tableName)`). -/
def pushUnique (acc : List String) (name : String) : List String :=
  if acc.contains name then acc else acc ++ [name]

/-- Model of `extractTablesFromSQL` inside `createSupabaseTools`: run the `FROM`
regex, then the `JOIN` regex, over the raw SQL text, deduplicating.  (The
source computes a whitespace-normalized lowercase copy but runs both
regexes on the raw string.) -/
def extractTablesFromSQL (sql : String) : List String :=
  (scanTableRefs "join".data (sql.data.length + 1) false sql.data).foldl
    (fun acc cap => pushUnique acc (tableNameOfCapture cap))
    ((scanTableRefs "from".data (sql.data.length + 1) false sql.data).foldl
      (fun acc cap => pushUnique acc (tableNameOfCapture cap)) [])

/-- The `AccessValidationResult` shape of `validateTableAccess`. -/
structure AccessValidationResult where
  allowed : Bool
  blockedTables : List String
  deriving Repr, DecidableEq

/-- Model of `validateTableAccess` inside `createSupabaseTools`: every extracted
table is checked with the default `public` schema. -/
def validateTableAccess (permissions : TablePermissionsConfig)
    (sql : String) : AccessValidationResult :=
  let tables := extractTablesFromSQL sql
  let blockedTables := tables.filter fun t => !canAccessTableAgent permissions t
  { allowed := blockedTables.length = 0, blockedTables }

/-! ## Identifier sanitizer and catalog reader (`tools.ts`)

The Supabase backend (`runQuery`) is abstracted as a pure catalog value: the
rows returned by the `information_schema.tables` query and, per table, the
rows of the column / primary-key / foreign-key queries. -/

/-- Model of `isValidSQLIdentifier`: 1–128 characters matching
`^[a-zA-Z_][a-zA-Z0-9_]*$`. -/
def isValidSQLIdentifier (value : String) : Bool :=
  match value.data with
  | [] => false
  | c :: cs => value.length ≤ 128 && isIdentStart c && cs.all isWordChar

/-- The error message of `validateSQLIdentifier`. -/
def invalidIdentifierMsg (value identifierType : String) : String :=
  "Invalid " ++ identifierType ++ ": \"" ++ value ++ "\". " ++
  "Identifiers must contain only letters, numbers, and underscores, and start with a letter or underscore."

/-- Model of `validateSQLIdentifier`: the identity on valid identifiers, a thrown
error otherwise. -/
def validateSQLIdentifier (value identifierType : String) : Except String String :=
  if isValidSQLIdentifier value then Except.ok value
  else Except.error (invalidIdentifierMsg value identifierType)

structure ColumnInfo where
  name : String
  type : String
  nullable : Bool
  defaultValue : Option String := Option.none
  isPrimaryKey : Bool
  isForeignKey : Bool
  references : Option (String × String) := Option.none
  deriving Repr, DecidableEq

structure TableInfo where
  name : String
  schema : String
  columns : List ColumnInfo := []
  deriving Repr, DecidableEq

/-- One row of the `information_schema.tables` catalog query. -/
structure CatalogRow where
  name : String
  schema : String
  deriving Repr, DecidableEq

/-- Rows of the column / primary-key / foreign-key catalog queries for one
table. -/
structure RawColumn where
  name : String
  type : String
  nullable : Bool
  defaultValue : Option String := Option.none
  deriving Repr, DecidableEq

structure RawFK where
  column : String
  foreignTable : String
  foreignColumn : String
  deriving Repr, DecidableEq

structure CatalogTable where
  columns : List RawColumn := []
  pks : List String := []
  fks : List RawFK := []
  deriving Repr, DecidableEq

/-- The abstracted read-only backend: the full table catalog plus the
per-table column metadata. -/
structure Backend where
  rows : List CatalogRow := []
  tableOf : String → String → CatalogTable := fun _ _ => {}

/-- The `SupabaseToolsConfig` (connection fields dropped; defaults as applied by
`createSupabaseTools`: `queryTimeout ?? 30000`, `maxRows ?? 1000`,
`permissions ?? {defaultAccess: 'read', tables: []}`). -/
structure SupabaseToolsConfig where
  queryTimeout : Nat := 30000
  maxRows : Nat := 1000
  permissions : TablePermissionsConfig := { defaultAccess := .read, tables := [] }

/-- Model of `listTables`: validate the schema identifier, query the catalog for base
tables of that schema, drop every table failing `canAccessTable`, and map to
`TableInfo` values with empty column lists. -/
def listTables (config : SupabaseToolsConfig) (backend : Backend)
    (schema : String := "public") : Except String (List TableInfo) := do
  let _ ← validateSQLIdentifier schema "schema name"
  let tables := backend.rows.filter fun t => t.schema = schema
  let accessibleTables := tables.filter fun t =>
    canAccessTableAgent config.permissions t.name t.schema
  return accessibleTables.map fun t => { name := t.name, schema := t.schema, columns := [] }

/-- The `ACCESS_DENIED` message thrown by `getTableSchema`. -/
def schemaAccessDeniedMsg (tableName : String) : String :=
  "ACCESS_DENIED: You don't have permission to access the table '" ++ tableName ++ "'. " ++
  "This table has been restricted in Security Settings. " ++
  "To access this data, please go to Security Settings to update table permissions, " ++
  "or contact your administrator to request access."

/-- Model of `getTableSchema`: validate both identifiers, fail with `ACCESS_DENIED`
when the table is restricted, then fetch the column metadata and remove the
columns of the permission's `blockedColumns` list.  (Note: the source reads
only `blockedColumns`; the `allowedColumns` list of the configuration is
never consulted on this path.) -/
def getTableSchema (config : SupabaseToolsConfig) (backend : Backend)
    (tableName : String) (schema : String := "public") : Except String TableInfo := do
  let safeTableName ← validateSQLIdentifier tableName "table name"
  let safeSchema ← validateSQLIdentifier schema "schema name"
  if !canAccessTableAgent config.permissions safeTableName safeSchema then
    throw (schemaAccessDeniedMsg safeTableName)
  let tablePermission := getTablePermission config.permissions safeTableName safeSchema
  let blockedColumns := tablePermission.blockedColumns
  let cat := backend.tableOf safeTableName safeSchema
  let columns := (cat.columns.filter fun col => !blockedColumns.contains col.name).map
    fun col =>
      let fk := cat.fks.find? fun f => f.column = col.name
      { name := col.name
        type := col.type
        nullable := col.nullable
        defaultValue := col.defaultValue
        isPrimaryKey := cat.pks.contains col.name
        isForeignKey := fk.isSome
        references := fk.map fun f => (f.foreignTable, f.foreignColumn) : ColumnInfo }
  return { name := safeTableName, schema := safeSchema, columns }

/-! ## Guarded query executor (`tools.ts` `executeSQL`) -/

/-- Model of `Array.join(', ')` over the blocked table list. -/
def joinComma : List String → String
  | [] => ""
  | [t] => t
  | t :: ts => t ++ ", " ++ joinComma ts

/-- The `ACCESS_DENIED` message thrown by `executeSQL`. -/
def execAccessDeniedMsg (blockedTables : List String) : String :=
  "ACCESS_DENIED: You don't have permission to query the following table(s): " ++
  joinComma blockedTables ++ ". " ++
  "These tables have been restricted in Security Settings. " ++
  "To access this data, please go to Security Settings to update table permissions, " ++
  "or contact your administrator to request access."

/-- Model of `executeSQL`: safety-validate, check table access, strip trailing
semicolons, append the row cap, then hand the final query to the backing
store (the timeout race and the returned rows are abstracted; the `.ok`
value is the exact query text that reaches execution).  The unused `params`
argument of the source is omitted. -/
def executeSQL (config : SupabaseToolsConfig) (sql : String) : Except String String := do
  let validation := validateSQL sql
  if !validation.valid then
    throw ("SQL validation failed: " ++ validation.error.getD "undefined")
  let accessValidation := validateTableAccess config.permissions sql
  if !accessValidation.allowed then
    throw (execAccessDeniedMsg accessValidation.blockedTables)
  let sanitizedSQL := sanitizeSQL sql
  let limitedSQL := addDefaultLimit sanitizedSQL config.maxRows
  return limitedSQL

/-! ## Tool-call dispatch (`tools.ts` `handleToolCall`) -/

/-- The loosely-typed tool input object: each field the dispatcher reads,
absent fields as `Option.none`. -/
structure ToolInput where
  schema : Option String := Option.none
  tableName : Option String := Option.none
  sql : Option String := Option.none
  params : Option (List String) := Option.none

/-- Model of `(toolInput.schema as string) || 'public'`: the JS `||` falls through on
the empty string as well as on `undefined`. -/
def orPublic : Option String → String
  | some s => if s = "" then "public" else s
  | Option.none => "public"

/-- The per-tool success payloads of the serialized envelope. -/
inductive ToolPayload
  | tablesList (tables : List (String × Nat))
  | tableSchema (table : TableInfo)
  | queryOk (finalSQL : String)
  deriving Repr, DecidableEq

/-- The uniform `{success, result?|error?}` envelope returned by
`handleToolCall` (JSON serialization abstracted to the structured value). -/
inductive ToolResponse
  | success (payload : ToolPayload)
  | failure (error : String)
  deriving Repr, DecidableEq

/-- The `success` flag of the envelope. -/
def ToolResponse.isSuccess : ToolResponse → Bool
  | .success _ => true
  | .failure _ => false

/-- Model of `handleToolCall`: dispatch on the tool name; every `throw` of the
underlying operation is caught at this boundary and converted into a
`{success:false, error}` envelope, and unknown tool names yield one too.
The function is total: no exception escapes.  (Missing `table_name` /
`sql` fields are modelled as the empty string, which fails identifier
validation / SQL validation just as the `undefined` of the source fails
them.) -/
def handleToolCall (config : SupabaseToolsConfig) (backend : Backend)
    (toolName : String) (toolInput : ToolInput) : ToolResponse :=
  match toolName with
  | "list_tables" =>
    let schema := orPublic toolInput.schema
    (match listTables config backend schema with
     | Except.ok tables =>
       .success (.tablesList (tables.map fun t => (t.name, t.columns.length)))
     | Except.error e => .failure e)
  | "get_table_schema" =>
    let tableName := (toolInput.tableName).getD ""
    let schema := orPublic toolInput.schema
    (match getTableSchema config backend tableName schema with
     | Except.ok tableInfo => .success (.tableSchema tableInfo)
     | Except.error e => .failure e)
  | "execute_sql" =>
    let sql := (toolInput.sql).getD ""
    (match executeSQL config sql with
     | Except.ok finalSQL => .success (.queryOk finalSQL)
     | Except.error e => .failure e)
  | _ => .failure ("Unknown tool: " ++ toolName)

/-! ## Streaming orchestrator (`analyst.ts` `chatStream` and the chat API
route)

The language model is abstracted as a script: the `i`-th model call either
fails (a model-call / stream-transport exception) or yields a complete
response — its streamed text deltas, the structured blocks that
`parseResponse` recognizes in the accumulated text, its tool-use requests,
and whether `stop_reason` was `end_turn`.  `chatStream` is an async
generator; its run is the list of yielded events plus the exception that
escaped it, if any.  The chat API route drains the generator and, when an
exception escapes, appends a single `error` event and closes the stream. -/

inductive EvType
  | reasoning
  | text
  | sql
  | toolCall
  | toolResult
  | data
  | chart
  | insights
  | permissionDenied
  | error
  | done
  deriving Repr, DecidableEq

structure StreamEvent where
  type : EvType
  content : String
  deriving Repr, DecidableEq

structure ToolUse where
  name : String
  input : ToolInput

/-- The blocks `parseResponse` found in the accumulated text of one model
response (each carries the `content` of the event it produces). -/
structure ParsedBlocks where
  insights : Option String := Option.none
  chart : Option String := Option.none
  permissionDenied : Option String := Option.none

inductive ModelTurn
  | reply (textDeltas : List String) (parsed : ParsedBlocks)
      (tools : List ToolUse) (endTurn : Bool)
  | failure (msg : String)

/-- The `tool_result` event content (JSON serialization abstracted). -/
def toolResultContent : ToolResponse → String
  | .success _ => "success"
  | .failure e => e

/-- Whether a parsed tool result satisfies `parsed.success &&
parsed.result?.data` — which holds exactly for a successful `execute_sql`
envelope (only its payload carries `result.data`). -/
def hasDataPayload : ToolResponse → Bool
  | .success (.queryOk _) => true
  | _ => false

/-- The events yielded while executing one tool-use block: `tool_call`,
then `sql` for `execute_sql`, then `tool_result`, then `data` when the
parsed result has `success && result.data`. -/
def toolUseEvents (config : SupabaseToolsConfig) (backend : Backend)
    (tool : ToolUse) : List StreamEvent :=
  let result := handleToolCall config backend tool.name tool.input
  [⟨.toolCall, tool.name⟩]
    ++ (if tool.name = "execute_sql" then [⟨.sql, (tool.input.sql).getD ""⟩] else [])
    ++ [⟨.toolResult, toolResultContent result⟩]
    ++ (if hasDataPayload result then [⟨.data, "Query executed successfully"⟩] else [])

/-- The optional typed events emitted after the text of a response has
accumulated: `insights`, `chart`, `permission_denied`. -/
def blockEvents (parsed : ParsedBlocks) : List StreamEvent :=
  ((parsed.insights).map fun k => (⟨.insights, k⟩ : StreamEvent)).toList
  ++ ((parsed.chart).map fun c => (⟨.chart, c⟩ : StreamEvent)).toList
  ++ ((parsed.permissionDenied).map fun m =>
      (⟨.permissionDenied, m⟩ : StreamEvent)).toList

/-- The `while (iterations < maxIterations)` loop of `chatStream`:
`remaining` is the number of loop entries still permitted, `i` the index of
the next scripted model call.  Returns the events yielded inside the loop,
the exception that escaped (if the model call failed), and the number of
model calls made. -/
def chatLoop (config : SupabaseToolsConfig) (backend : Backend)
    (script : Nat → ModelTurn) : Nat → Nat → List StreamEvent × Option String × Nat
  | _, 0 => ([], Option.none, 0)
  | i, remaining + 1 =>
    match script i with
    | .failure m => ([], some m, 1)
    | .reply textDeltas parsed tools endTurn =>
      let evs := textDeltas.map (fun d => (⟨.text, d⟩ : StreamEvent))
        ++ blockEvents parsed
        ++ tools.flatMap (toolUseEvents config backend)
      if !tools.isEmpty && !endTurn then
        let rec_ := chatLoop config backend script (i + 1) remaining
        (evs ++ rec_.1, rec_.2.1, rec_.2.2 + 1)
      else (evs, Option.none, 1)

/-- One full `chatStream` run: the loop followed by the terminal `done`
yield, which is reached only when no exception escaped the loop. -/
def chatStreamRun (config : SupabaseToolsConfig) (backend : Backend)
    (maxIterations : Nat) (script : Nat → ModelTurn) :
    List StreamEvent × Option String × Nat :=
  let r := chatLoop config backend script 0 maxIterations
  match r.2.1 with
  | Option.none => (r.1 ++ [⟨.done, "Analysis complete"⟩], Option.none, r.2.2)
  | some m => (r.1, some m, r.2.2)

/-- The SSE event list produced by the chat API route for one turn: the
events the generator yielded and, when an exception escaped `chatStream`,
one final `error` event (the route's `catch` closes the stream right after
it — no further event follows). -/
def routeEvents (config : SupabaseToolsConfig) (backend : Backend)
    (maxIterations : Nat) (script : Nat → ModelTurn) : List StreamEvent :=
  match chatStreamRun config backend maxIterations script with
  | (evs, Option.none, _) => evs
  | (evs, some m, _) => evs ++ [⟨.error, m⟩]

/-- Number of model calls made by a run. -/
def modelCalls (config : SupabaseToolsConfig) (backend : Backend)
    (maxIterations : Nat) (script : Nat → ModelTurn) : Nat :=
  (chatStreamRun config backend maxIterations script).2.2

/-! ## Spec-side predicates

Independent formulations of the spec's wording, to be related to the code
models above. -/

/-- The spec's "blocked keyword as a statement-leading, word-bounded token
(immediately after start-of-string or a semicolon)": some decomposition of
the text puts `kw` after either nothing or a semicolon followed only by
whitespace, with no word character directly after it. -/
def KwStmtLeading (kw ns : List Char) : Prop :=
  ∃ pre post, ns = pre ++ kw ++ post ∧
    (pre = [] ∨ ∃ pre2 ws, pre = pre2 ++ ';' :: ws ∧ ∀ c ∈ ws, isSpaceChar c = true) ∧
    (∀ c, post.head? = some c → isWordChar c = false)

/-- The spec's "a `;` appears anywhere before the final character". -/
def SemiBeforeEnd (ns : List Char) : Prop :=
  ∃ i, ns.get? i = some ';' ∧ i + 1 < ns.length

/-- The spec's "the text begins with SELECT or WITH". -/
def StartsSelectOrWith (ns : List Char) : Prop :=
  "SELECT".data <+: ns ∨ "WITH".data <+: ns

/-- The spec's class of queries "in which every FROM/JOIN table reference is
written as a double-quoted identifier" for one keyword: wherever a
word-bounded occurrence of the keyword is followed by at least one
whitespace character, the character after the whitespace run is `"`. -/
def prevNonWord (s : List Char) (p : Nat) : Bool :=
  match p with
  | 0 => true
  | q + 1 =>
    match s.get? q with
    | some c => !isWordChar c
    | Option.none => true

def allRefsQuotedFor (kw s : List Char) : Bool :=
  (List.range (s.length + 1)).all fun p =>
    !(prevNonWord s p) ||
      (stripLitCI kw (s.drop p)).elim true fun afterKw =>
        (afterKw.takeWhile isSpaceChar).isEmpty ||
          ((afterKw.dropWhile isSpaceChar).head? == some '"')

def allRefsQuoted (s : List Char) : Bool :=
  allRefsQuotedFor "from".data s && allRefsQuotedFor "join".data s

/-- The spec's configuration invariant: at most one permission entry per
case-insensitive `(schema, table)` key. -/
abbrev CIUniqueKeys (l : List TablePermission) : Prop :=
  l.Pairwise fun a b =>
    ¬(strLower a.table = strLower b.table ∧ strLower a.schema = strLower b.schema)

/-- Uniqueness per exact `(schema, table)` key — the key discipline the
code actually uses. -/
abbrev ExactUniqueKeys (l : List TablePermission) : Prop :=
  l.Pairwise fun a b => ¬(a.table = b.table ∧ a.schema = b.schema)

/-- The fallible dispatch underlying `handleToolCall`, before the
success/error envelope wrapping. -/
def dispatchToolCall (config : SupabaseToolsConfig) (backend : Backend)
    (toolName : String) (toolInput : ToolInput) : Except String ToolPayload :=
  match toolName with
  | "list_tables" =>
    (listTables config backend (orPublic toolInput.schema)).map fun tables =>
      .tablesList (tables.map fun t => (t.name, t.columns.length))
  | "get_table_schema" =>
    (getTableSchema config backend ((toolInput.tableName).getD "")
      (orPublic toolInput.schema)).map .tableSchema
  | "execute_sql" =>
    (executeSQL config ((toolInput.sql).getD "")).map .queryOk
  | _ => Except.error ("Unknown tool: " ++ toolName)

/-- Wrap a fallible outcome in the uniform envelope. -/
def toEnvelope : Except String ToolPayload → ToolResponse
  | Except.ok payload => .success payload
  | Except.error e => .failure e

instance {ε α : Type} [DecidableEq ε] [DecidableEq α] : DecidableEq (Except ε α) := fun x y =>
  match x, y with
  | .ok a, .ok b =>
    if h : a = b then isTrue (by rw [h]) else isFalse (fun hc => h (Except.ok.inj hc))
  | .error a, .error b =>
    if h : a = b then isTrue (by rw [h]) else isFalse (fun hc => h (Except.error.inj hc))
  | .ok _, .error _ => isFalse (fun hc => Except.noConfusion hc)
  | .error _, .ok _ => isFalse (fun hc => Except.noConfusion hc)

/-! ## Helper lemmas: literal matching -/

theorem stripLit_eq_some {kw s rest : List Char} :
    stripLit kw s = some rest ↔ s = kw ++ rest := by
  induction kw generalizing s with
  | nil => simp [stripLit]
  | cons k ks ih =>
    cases s with
    | nil => simp [stripLit]
    | cons c cs =>
      by_cases hck : c = k
      · subst hck
        simp [stripLit, ih]
      · simp [stripLit, hck]

theorem startsWithLit_iff {pat s : List Char} :
    startsWithLit pat s = true ↔ pat <+: s := by
  unfold startsWithLit
  constructor
  · intro h
    rcases Option.isSome_iff_exists.mp h with ⟨rest, hr⟩
    exact ⟨rest, (stripLit_eq_some.mp hr).symm⟩
  · rintro ⟨rest, hr⟩
    exact Option.isSome_iff_exists.mpr ⟨rest, stripLit_eq_some.mpr hr.symm⟩

theorem containsLit_iff {pat s : List Char} :
    containsLit pat s = true ↔ ∃ pre post, s = pre ++ pat ++ post := by
  induction s with
  | nil =>
    simp only [containsLit, startsWithLit_iff]
    constructor
    · rintro ⟨rest, hr⟩
      exact ⟨[], rest, by simpa using hr.symm⟩
    · rintro ⟨pre, post, h⟩
      rcases List.append_eq_nil.mp h.symm with ⟨h2, -⟩
      rcases List.append_eq_nil.mp h2 with ⟨-, hpat⟩
      exact ⟨[], by simp [hpat]⟩
  | cons c cs ih =>
    simp only [containsLit, Bool.or_eq_true, startsWithLit_iff, ih]
    constructor
    · rintro (⟨rest, hr⟩ | ⟨pre, post, h⟩)
      · exact ⟨[], rest, by simp [hr.symm]⟩
      · exact ⟨c :: pre, post, by simp [h]⟩
    · rintro ⟨pre, post, h⟩
      cases pre with
      | nil => exact Or.inl ⟨post, by simpa using h.symm⟩
      | cons p ps =>
        rw [List.cons_append, List.cons_append, List.cons.injEq] at h
        exact Or.inr ⟨ps, post, h.2⟩

theorem dropWhile_append_of_all {p : Char → Bool} {l1 l2 : List Char}
    (h : ∀ c ∈ l1, p c = true) :
    (l1 ++ l2).dropWhile p = l2.dropWhile p := by
  induction l1 with
  | nil => rfl
  | cons c cs ih =>
    have hc := h c (List.mem_cons_self c cs)
    simp only [List.cons_append, List.dropWhile_cons, hc, if_true]
    exact ih fun d hd => h d (List.mem_cons_of_mem c hd)

theorem boundRight_iff {post : List Char} :
    boundRight post = true ↔ ∀ c, post.head? = some c → isWordChar c = false := by
  cases post with
  | nil => simp [boundRight]
  | cons c cs => simp [boundRight]

theorem leadOK_iff {pre : List Char} :
    leadOK pre = true ↔
      (pre = [] ∨ ∃ pre2 ws, pre = pre2 ++ ';' :: ws ∧ ∀ c ∈ ws, isSpaceChar c = true) := by
  unfold leadOK
  by_cases hnil : pre = []
  · simp [hnil]
  · simp only [hnil, decide_False, Bool.false_or]
    constructor
    · intro h
      rcases hr : pre.reverse.dropWhile isSpaceChar with _ | ⟨c, r'⟩
      · rw [hr] at h; exact absurd h (by simp)
      · rw [hr] at h
        have hc : c = ';' := by simpa using h
        subst hc
        have hsplit : pre.reverse = pre.reverse.takeWhile isSpaceChar ++ ';' :: r' := by
          rw [← hr, List.takeWhile_append_dropWhile]
        refine Or.inr ⟨r'.reverse, (pre.reverse.takeWhile isSpaceChar).reverse, ?_, ?_⟩
        · have := congrArg List.reverse hsplit
          simpa [List.reverse_append] using this
        · intro c hc
          have hc' : c ∈ pre.reverse.takeWhile isSpaceChar := by
            simpa using hc
          exact List.mem_takeWhile_imp hc'
    · rintro (h | ⟨pre2, ws, hpre, hws⟩)
      · exact h.elim
      · have : pre.reverse.dropWhile isSpaceChar = ';' :: pre2.reverse := by
          rw [hpre]
          simp only [List.reverse_append, List.reverse_cons]
          rw [List.append_assoc]
          rw [dropWhile_append_of_all (by intro c hc; exact hws c (by simpa using hc))]
          simp [List.dropWhile_cons, isSpaceChar]
        rw [this]
        simp

theorem hasLeadingKw_iff {kw s : List Char} :
    hasLeadingKw kw s = true ↔ KwStmtLeading kw s := by
  unfold hasLeadingKw KwStmtLeading
  rw [List.any_eq_true]
  constructor
  · rintro ⟨p, hp, hcond⟩
    rw [Bool.and_eq_true] at hcond
    obtain ⟨hlead, hmatch⟩ := hcond
    rcases hstrip : stripLit kw (s.drop p) with _ | rest
    · rw [hstrip] at hmatch; exact absurd hmatch (by simp)
    · rw [hstrip] at hmatch
      have hdecomp : s.drop p = kw ++ rest := stripLit_eq_some.mp hstrip
      refine ⟨s.take p, rest, ?_, ?_, ?_⟩
      · rw [List.append_assoc, ← hdecomp, List.take_append_drop]
      · exact leadOK_iff.mp hlead
      · exact boundRight_iff.mp hmatch
  · rintro ⟨pre, post, hdecomp, hlead, hbound⟩
    refine ⟨pre.length, ?_, ?_⟩
    · rw [List.mem_range]
      have : pre.length ≤ s.length := by
        rw [hdecomp]
        simp only [List.append_assoc, List.length_append]
        omega
      omega
    · rw [Bool.and_eq_true]
      constructor
      · have htake : s.take pre.length = pre := by
          rw [hdecomp, List.append_assoc, List.take_left]
        rw [htake]
        exact leadOK_iff.mpr hlead
      · have hdrop : s.drop pre.length = kw ++ post := by
          rw [hdecomp, List.append_assoc, List.drop_left]
        rw [hdrop, stripLit_eq_some.mpr rfl]
        exact boundRight_iff.mpr hbound

theorem firstIdxChar_eq_none {c : Char} {l : List Char} :
    firstIdxChar c l = Option.none ↔ c ∉ l := by
  induction l with
  | nil => simp [firstIdxChar]
  | cons d ds ih =>
    by_cases hdc : d = c
    · subst hdc; simp [firstIdxChar]
    · simp [firstIdxChar, hdc, Option.map_eq_none', ih, Ne.symm hdc]

theorem firstIdxChar_some {c : Char} {l : List Char} {k : Nat}
    (h : firstIdxChar c l = some k) :
    l.get? k = some c ∧ ∀ j < k, l.get? j ≠ some c := by
  induction l generalizing k with
  | nil => simp [firstIdxChar] at h
  | cons d ds ih =>
    by_cases hdc : d = c
    · subst hdc
      simp [firstIdxChar] at h
      subst h
      simp
    · simp only [firstIdxChar, hdc, if_false, Option.map_eq_some'] at h
      rcases h with ⟨k', hk', rfl⟩
      obtain ⟨hget, hmin⟩ := ih hk'
      refine ⟨by simpa using hget, ?_⟩
      intro j hj
      cases j with
      | zero => simpa using hdc
      | succ j' =>
        simp only [List.get?_cons_succ]
        exact hmin j' (by omega)

theorem multiStmtHit_iff {ns : List Char} :
    multiStmtHit ns = true ↔ SemiBeforeEnd ns := by
  unfold multiStmtHit SemiBeforeEnd
  rcases hf : firstIdxChar ';' ns with _ | k
  · simp only []
    constructor
    · intro h; exact absurd h (by simp)
    · rintro ⟨i, hi, -⟩
      have : (';' : Char) ∈ ns := List.get?_mem hi
      exact absurd this (firstIdxChar_eq_none.mp hf)
  · obtain ⟨hget, hmin⟩ := firstIdxChar_some hf
    simp only [decide_eq_true_eq]
    constructor
    · intro h
      have hklen : k < ns.length := (List.get?_eq_some.mp hget).1
      exact ⟨k, hget, by omega⟩
    · rintro ⟨i, hi, hlen⟩
      have hki : k ≤ i := by
        by_contra hik
        exact hmin i (by omega) hi
      omega

/-- On an invalid result the error field is always populated. -/
theorem validateSQL_invalid_error {sql : String} (h : (validateSQL sql).valid = false) :
    ∃ e, (validateSQL sql).error = some e := by
  unfold validateSQL validateNS at *
  rcases hf : BLOCKED_KEYWORDS.find? (fun kw => hasLeadingKw kw.data (normalizeSQL sql)) with
      _ | kw
  · rw [hf] at h ⊢
    by_cases hm : multiStmtHit (normalizeSQL sql)
    · simp [hm]
    · by_cases hs : (startsWithLit "SELECT".data (normalizeSQL sql) ||
          startsWithLit "WITH".data (normalizeSQL sql))
      · simp [hm, hs] at h
      · simp [hm, hs]
  · rw [hf] at h ⊢
    simp

/-- The valid flag depends only on the three fatal rules (warnings are
irrelevant): keyword scan clear, no interior semicolon, SELECT/WITH start. -/
theorem validateSQL_valid_iff (sql : String) :
    (validateSQL sql).valid = true ↔
      ((∀ kw ∈ BLOCKED_KEYWORDS, ¬ KwStmtLeading kw.data (normalizeSQL sql)) ∧
       ¬ SemiBeforeEnd (normalizeSQL sql) ∧
       StartsSelectOrWith (normalizeSQL sql)) := by
  unfold validateSQL validateNS
  rcases hf : BLOCKED_KEYWORDS.find? (fun kw => hasLeadingKw kw.data (normalizeSQL sql)) with
      _ | kw
  · have hnone : ∀ kw ∈ BLOCKED_KEYWORDS, ¬ KwStmtLeading kw.data (normalizeSQL sql) := by
      intro kw hkw hlead
      have := List.find?_eq_none.mp hf kw hkw
      exact this (hasLeadingKw_iff.mpr hlead)
    rw [hf]
    by_cases hm : multiStmtHit (normalizeSQL sql)
    · simp only [hm, if_true]
      constructor
      · intro h; exact absurd h (by simp)
      · rintro ⟨-, hnosemi, -⟩
        exact absurd (multiStmtHit_iff.mp hm) hnosemi
    · by_cases hs : (startsWithLit "SELECT".data (normalizeSQL sql) ||
          startsWithLit "WITH".data (normalizeSQL sql))
      · simp only [hm, if_false, hs, Bool.not_true, if_false]
        constructor
        · intro _
          refine ⟨hnone, fun hsemi => hm (multiStmtHit_iff.mpr hsemi), ?_⟩
          have hs' : startsWithLit "SELECT".data (normalizeSQL sql) = true ∨
              startsWithLit "WITH".data (normalizeSQL sql) = true := by
            simpa using hs
          rcases hs' with h | h
          · exact Or.inl (startsWithLit_iff.mp h)
          · exact Or.inr (startsWithLit_iff.mp h)
        · intro _
          rfl
      · have hs2 : (startsWithLit "SELECT".data (normalizeSQL sql) ||
            startsWithLit "WITH".data (normalizeSQL sql)) = false := by
          simpa using hs
        rw [if_neg hm, if_pos (by simp [hs2])]
        constructor
        · intro h; exact absurd h (by simp)
        · rintro ⟨-, -, hstart⟩
          exfalso
          rcases hstart with h | h
          · have := startsWithLit_iff.mpr h
            simp [this] at hs2
          · have := startsWithLit_iff.mpr h
            simp [this] at hs2
  · have hkwmem := List.mem_of_find?_eq_some hf
    have hkwlead := List.find?_some hf
    rw [hf]
    constructor
    · intro h; exact absurd h (by simp)
    · rintro ⟨hnolead, -, -⟩
      exact absurd (hasLeadingKw_iff.mp hkwlead) (hnolead kw hkwmem)

/-! ## Lemmas about the executor messages -/

theorem joinComma_mem_substr {t : String} {l : List String} (h : t ∈ l) :
    t.data <:+: (joinComma l).data := by
  induction l with
  | nil => simp at h
  | cons x xs ih =>
    cases xs with
    | nil =>
      have : t = x := by simpa using h
      subst this
      exact List.infix_refl _
    | cons y ys =>
      rcases List.mem_cons.mp h with rfl | hmem
      · show t.data <:+: (t ++ ", " ++ joinComma (y :: ys)).data
        refine ⟨[], (", " ++ joinComma (y :: ys)).data, ?_⟩
        simp [String.data_append]
      · have hinf := ih hmem
        have : (joinComma (x :: y :: ys)).data =
            (x ++ ", ").data ++ (joinComma (y :: ys)).data ++ [] := by
          show (x ++ ", " ++ joinComma (y :: ys)).data = _
          simp [String.data_append]
        rw [this]
        exact hinf.trans (List.infix_append _ _ _)

theorem mem_execAccessDeniedMsg_substr {t : String} {l : List String} (h : t ∈ l) :
    t.data <:+: (execAccessDeniedMsg l).data := by
  have hinf := joinComma_mem_substr h
  have hdata : (execAccessDeniedMsg l).data =
      "ACCESS_DENIED: You don't have permission to query the following table(s): ".data ++
        (joinComma l).data ++
        (". " ++
         "These tables have been restricted in Security Settings. " ++
         "To access this data, please go to Security Settings to update table permissions, " ++
         "or contact your administrator to request access.").data := by
    show ("ACCESS_DENIED: You don't have permission to query the following table(s): " ++
      joinComma l ++ ". " ++ "These tables have been restricted in Security Settings. " ++
      "To access this data, please go to Security Settings to update table permissions, " ++
      "or contact your administrator to request access.").data = _
    simp [String.data_append]
  rw [hdata]
  exact hinf.trans (List.infix_append _ _ _)

/-! ## Claim theorems -/

/-- C1: `executeSQL` settles every query in the order safety-validation →
table-access check → sanitize → row cap → execution: an invalid query fails
with a validation error carrying the violated rule's message and never
reaches the permission check or execution; a valid query touching blocked
tables fails with an `ACCESS_DENIED` error whose message names every
blocked table; otherwise the sanitized, row-capped query is what reaches
execution. -/
theorem executeSQL_check_order (config : SupabaseToolsConfig) (sql : String) :
    ((validateSQL sql).valid = false →
      ∃ e, (validateSQL sql).error = some e ∧
        executeSQL config sql = Except.error ("SQL validation failed: " ++ e)) ∧
    ((validateSQL sql).valid = true →
      (validateTableAccess config.permissions sql).allowed = false →
      executeSQL config sql =
        Except.error
          (execAccessDeniedMsg (validateTableAccess config.permissions sql).blockedTables) ∧
      ∀ t ∈ (validateTableAccess config.permissions sql).blockedTables,
        t.data <:+:
          (execAccessDeniedMsg
            (validateTableAccess config.permissions sql).blockedTables).data) ∧
    ((validateSQL sql).valid = true →
      (validateTableAccess config.permissions sql).allowed = true →
      executeSQL config sql =
        Except.ok (addDefaultLimit (sanitizeSQL sql) config.maxRows)) := by
  refine ⟨?_, ?_, ?_⟩
  · intro hv
    obtain ⟨e, he⟩ := validateSQL_invalid_error hv
    refine ⟨e, he, ?_⟩
    unfold executeSQL
    simp [hv, he, throw, throwThe, MonadExceptOf.throw, Bind.bind, Except.bind]
  · intro hv ha
    refine ⟨?_, fun t ht => mem_execAccessDeniedMsg_substr ht⟩
    unfold executeSQL
    simp [hv, ha, throw, throwThe, MonadExceptOf.throw, Bind.bind, Except.bind,
      Functor.map, Except.map, pure, Except.pure]
  · intro hv ha
    unfold executeSQL
    simp [hv, ha, throw, throwThe, MonadExceptOf.throw, Bind.bind, Except.bind,
      pure, Except.pure]

/-- C1 witness: with `users` restricted to `none` and default `read`,
`SELECT * FROM users` fails with the access-denied message naming `users`,
and `SELECT * FROM orders` reaches execution row-capped. -/
theorem executeSQL_check_order_witness :
    executeSQL
        { permissions := { defaultAccess := AccessLevel.read, tables := [{ table := "users", schema := "public", accessLevel := AccessLevel.none }] } }
        "SELECT * FROM users" =
      Except.error (execAccessDeniedMsg ["users"]) ∧
    "users".data <:+: (execAccessDeniedMsg ["users"]).data ∧
    executeSQL
        { permissions := { defaultAccess := AccessLevel.read, tables := [{ table := "users", schema := "public", accessLevel := AccessLevel.none }] } }
        "SELECT * FROM orders" =
      Except.ok "SELECT * FROM orders LIMIT 1000" := by
  refine ⟨?_, ?_, ?_⟩
  · have h := (executeSQL_check_order
      { permissions := { defaultAccess := AccessLevel.read, tables := [{ table := "users", schema := "public", accessLevel := AccessLevel.none }] } }
      "SELECT * FROM users").2.1 (by decide) (by decide)
    exact h.1
  · have h := (executeSQL_check_order
      { permissions := { defaultAccess := AccessLevel.read, tables := [{ table := "users", schema := "public", accessLevel := AccessLevel.none }] } }
      "SELECT * FROM users").2.1 (by decide) (by decide)
    exact h.2 "users" (by decide)
  · have h := (executeSQL_check_order
      { permissions := { defaultAccess := AccessLevel.read, tables := [{ table := "users", schema := "public", accessLevel := AccessLevel.none }] } }
      "SELECT * FROM orders").2.2 (by decide) (by decide)
    simpa using h

/-- C2: `validateSQL` accepts exactly the queries whose uppercased, trimmed
text has no blocked keyword as a statement-leading word-bounded token, no
semicolon before the final character, and a SELECT/WITH start; warnings
never affect validity, and every rejection populates the error message. -/
theorem validateSQL_rules (sql : String) :
    ((validateSQL sql).valid = true ↔
      ((∀ kw ∈ BLOCKED_KEYWORDS, ¬ KwStmtLeading kw.data (normalizeSQL sql)) ∧
       ¬ SemiBeforeEnd (normalizeSQL sql) ∧
       StartsSelectOrWith (normalizeSQL sql))) ∧
    ((validateSQL sql).valid = false → ∃ e, (validateSQL sql).error = some e) :=
  ⟨validateSQL_valid_iff sql, validateSQL_invalid_error⟩

/-- C2 witness: `SELECT 1` is accepted (and indeed starts with SELECT);
`DROP TABLE t` is rejected with a populated error. -/
theorem validateSQL_rules_witness :
    ((validateSQL "SELECT 1").valid = true ∧
      StartsSelectOrWith (normalizeSQL "SELECT 1")) ∧
    ((validateSQL "DROP TABLE t").valid = false ∧
      ∃ e, (validateSQL "DROP TABLE t").error = some e) :=
  ⟨⟨by decide, ((validateSQL_rules "SELECT 1").1.mp (by decide)).2.2⟩,
   ⟨by decide, (validateSQL_rules "DROP TABLE t").2 (by decide)⟩⟩

/-- C3 counterexample: with the single configured entry `Users`/`public`
(read) and default `none`, resolving `users`/`public` through the web-side
`getTableAccess` does not return the case-insensitively matching entry — it
synthesizes the default (`none`) — so resolution is not case-insensitive as
claimed. -/
theorem getTableAccess_not_caseInsensitive_cx :
    (∃ p ∈ ({ defaultAccess := AccessLevel.none, tables := [{ table := "Users", schema := "public", accessLevel := AccessLevel.read }] } : TablePermissionsConfig).tables,
        strLower p.table = strLower "users" ∧ strLower p.schema = strLower "public") ∧
    getTableAccess { defaultAccess := AccessLevel.none, tables := [{ table := "Users", schema := "public", accessLevel := AccessLevel.read }] } "users" "public" ∉
      ({ defaultAccess := AccessLevel.none, tables := [{ table := "Users", schema := "public", accessLevel := AccessLevel.read }] } : TablePermissionsConfig).tables ∧
    (getTableAccess { defaultAccess := AccessLevel.none, tables := [{ table := "Users", schema := "public", accessLevel := AccessLevel.read }] } "users" "public").accessLevel =
      AccessLevel.none := by
  refine ⟨?_, ?_, ?_⟩ <;> decide

/-- C3 (amended): permission resolution is case-insensitive in the
agent-side `getTablePermission` — a case-insensitively matching configured
entry is returned, and the default is synthesized only when none matches —
while the web-side `getTableAccess` matches exactly: whenever no exact
`(table, schema)` entry exists it synthesizes the default, even if an entry
differing only in case is configured. -/
theorem permission_resolution_case_rules (config : TablePermissionsConfig)
    (table schema : String) :
    ((∃ p ∈ config.tables,
        strLower p.table = strLower table ∧ strLower p.schema = strLower schema) →
      getTablePermission config table schema ∈ config.tables ∧
      strLower (getTablePermission config table schema).table = strLower table ∧
      strLower (getTablePermission config table schema).schema = strLower schema) ∧
    ((∀ p ∈ config.tables,
        ¬(strLower p.table = strLower table ∧ strLower p.schema = strLower schema)) →
      getTablePermission config table schema =
        { table := table, schema := schema, accessLevel := config.defaultAccess }) ∧
    ((∀ p ∈ config.tables, ¬(p.table = table ∧ p.schema = schema)) →
      getTableAccess config table schema =
        { table := table, schema := schema, accessLevel := config.defaultAccess }) := by
  refine ⟨?_, ?_, ?_⟩
  · intro hex
    have hsome : (config.tables.find? (fun t =>
        strLower t.table = strLower table ∧ strLower t.schema = strLower schema)).isSome := by
      rw [List.find?_isSome]
      obtain ⟨p, hp, hcond⟩ := hex
      exact ⟨p, hp, by simpa using hcond⟩
    rcases hfound : config.tables.find? (fun t =>
        strLower t.table = strLower table ∧ strLower t.schema = strLower schema) with _ | p
    · rw [hfound] at hsome; simp at hsome
    · have hmem := List.mem_of_find?_eq_some hfound
      have hpred := List.find?_some hfound
      have hpred' : strLower p.table = strLower table ∧ strLower p.schema = strLower schema := by
        simpa using hpred
      unfold getTablePermission
      rw [hfound]
      exact ⟨hmem, hpred'.1, hpred'.2⟩
  · intro hnone
    unfold getTablePermission
    rw [List.find?_eq_none.mpr (by intro p hp; simpa using hnone p hp)]
  · intro hnone
    unfold getTableAccess
    rw [List.find?_eq_none.mpr (by intro p hp; simpa using hnone p hp)]

/-- C3 witness: with the entry `Users`/`public` configured, the agent-side
lookup of `users` returns the configured entry while the web-side lookup
falls through to the default. -/
theorem permission_resolution_case_rules_witness :
    getTablePermission { defaultAccess := AccessLevel.none, tables := [{ table := "Users", schema := "public", accessLevel := AccessLevel.read }] } "users" "public" ∈
      ({ defaultAccess := AccessLevel.none, tables := [{ table := "Users", schema := "public", accessLevel := AccessLevel.read }] } : TablePermissionsConfig).tables ∧
    getTableAccess { defaultAccess := AccessLevel.none, tables := [{ table := "Users", schema := "public", accessLevel := AccessLevel.read }] } "users" "public" =
      { table := "users", schema := "public", accessLevel := AccessLevel.none } :=
  ⟨((permission_resolution_case_rules
      { defaultAccess := AccessLevel.none, tables := [{ table := "Users", schema := "public", accessLevel := AccessLevel.read }] }
      "users" "public").1 (by decide)).1,
   (permission_resolution_case_rules
      { defaultAccess := AccessLevel.none, tables := [{ table := "Users", schema := "public", accessLevel := AccessLevel.read }] }
      "users" "public").2.2 (by decide)⟩

/-- C5: every table in a successful `listTables` result passes
`canAccessTable` under the given config — a table whose resolved access
level is `none` is never returned, whatever the catalog holds. -/
theorem listTables_only_accessible (config : SupabaseToolsConfig) (backend : Backend)
    (schema : String) (out : List TableInfo)
    (hok : listTables config backend schema = Except.ok out) :
    ∀ t ∈ out, canAccessTableAgent config.permissions t.name t.schema = true ∧
      (getTablePermission config.permissions t.name t.schema).accessLevel ≠
        AccessLevel.none := by
  intro t ht
  unfold listTables validateSQLIdentifier at hok
  by_cases hid : isValidSQLIdentifier schema
  · simp only [hid, if_true, Bind.bind, Except.bind, pure, Except.pure,
      Except.ok.injEq] at hok
    subst hok
    rcases List.mem_map.mp ht with ⟨row, hrow, hteq⟩
    have hpred := (List.mem_filter.mp hrow).2
    have hacc : canAccessTableAgent config.permissions row.name row.schema = true := hpred
    have hname : t.name = row.name := by rw [← hteq]
    have hschema : t.schema = row.schema := by rw [← hteq]
    rw [hname, hschema]
    refine ⟨hacc, ?_⟩
    unfold canAccessTableAgent at hacc
    simpa using hacc
  · simp [hid, Bind.bind, Except.bind] at hok

/-- C5 witness: with `users` restricted and a catalog holding `users` and
`orders`, only `orders` is returned, and it passes the access check. -/
theorem listTables_only_accessible_witness :
    listTables { permissions := { defaultAccess := AccessLevel.read, tables := [{ table := "users", schema := "public", accessLevel := AccessLevel.none }] } } { rows := [{ name := "orders", schema := "public" }, { name := "users", schema := "public" }] } "public" =
      Except.ok [{ name := "orders", schema := "public", columns := [] }] ∧
    canAccessTableAgent { defaultAccess := AccessLevel.read, tables := [{ table := "users", schema := "public", accessLevel := AccessLevel.none }] } "orders" "public" = true :=
  ⟨by decide,
   (listTables_only_accessible
      { permissions := { defaultAccess := AccessLevel.read, tables := [{ table := "users", schema := "public", accessLevel := AccessLevel.none }] } }
      { rows := [{ name := "orders", schema := "public" }, { name := "users", schema := "public" }] }
      "public" [{ name := "orders", schema := "public", columns := [] }]
      (by decide) { name := "orders", schema := "public", columns := [] }
      (by decide)).1⟩

/-- C6: `canAccessColumn` grants access exactly when the resolved table
level is not `none`, the column is outside `blockedColumns`, and — when
`allowedColumns` is non-empty — the column is listed there; the blocked
list is consulted before the allow list and both must pass. -/
theorem canAccessColumn_rules (config : TablePermissionsConfig)
    (table column schema : String) :
    canAccessColumn config table column schema = true ↔
      ((getTableAccess config table schema).accessLevel ≠ AccessLevel.none ∧
       column ∉ (getTableAccess config table schema).blockedColumns ∧
       ((getTableAccess config table schema).allowedColumns = [] ∨
        column ∈ (getTableAccess config table schema).allowedColumns)) := by
  unfold canAccessColumn
  by_cases h1 : (getTableAccess config table schema).accessLevel = AccessLevel.none
  · simp [h1]
  · by_cases h2 : column ∈ (getTableAccess config table schema).blockedColumns
    · simp [h1, h2]
    · rcases hal : (getTableAccess config table schema).allowedColumns with _ | ⟨a, as⟩
      · simp [h1, h2, hal]
      · by_cases h3 : column ∈ a :: as
        · simp [h1, h2, hal, h3]
        · simp [h1, h2, hal, h3]

/-- C4 counterexample: with `users` readable, `allowedColumns = ["name"]`
and an empty blocked list, `getTableSchema` still returns the `ssn` column
— a column that does not survive the (non-empty) allow list — so the claim
that every returned column survives both lists is false. -/
theorem getTableSchema_ignores_allowedColumns_cx :
    getTableSchema
        { permissions := { defaultAccess := AccessLevel.read, tables := [{ table := "users", schema := "public", accessLevel := AccessLevel.read, allowedColumns := ["name"], blockedColumns := [] }] } }
        { rows := [], tableOf := fun t s => if t = "users" ∧ s = "public" then { columns := [{ name := "name", type := "text", nullable := false }, { name := "ssn", type := "text", nullable := false }] } else {} }
        "users" "public" =
      Except.ok { name := "users", schema := "public", columns := [{ name := "name", type := "text", nullable := false, defaultValue := Option.none, isPrimaryKey := false, isForeignKey := false, references := Option.none }, { name := "ssn", type := "text", nullable := false, defaultValue := Option.none, isPrimaryKey := false, isForeignKey := false, references := Option.none }] } ∧
    (getTablePermission { defaultAccess := AccessLevel.read, tables := [{ table := "users", schema := "public", accessLevel := AccessLevel.read, allowedColumns := ["name"], blockedColumns := [] }] } "users" "public").allowedColumns = ["name"] ∧
    "ssn" ∉ (getTablePermission { defaultAccess := AccessLevel.read, tables := [{ table := "users", schema := "public", accessLevel := AccessLevel.read, allowedColumns := ["name"], blockedColumns := [] }] } "users" "public").allowedColumns := by
  refine ⟨?_, ?_, ?_⟩ <;> decide

/-- C4 (amended): for identifier-valid names, `getTableSchema` fails with
the distinguishable `ACCESS_DENIED` error — whose message carries the table
name and the Security-Settings remediation hint — exactly when
`canAccessTable` is false; otherwise it succeeds and the returned columns
are exactly the catalog columns outside `blockedColumns` (the
`allowedColumns` list is not consulted on this path). -/
theorem getTableSchema_rules (config : SupabaseToolsConfig) (backend : Backend)
    (table schema : String)
    (ht : isValidSQLIdentifier table = true) (hs : isValidSQLIdentifier schema = true) :
    (canAccessTableAgent config.permissions table schema = false →
      getTableSchema config backend table schema =
        Except.error (schemaAccessDeniedMsg table) ∧
      table.data <:+: (schemaAccessDeniedMsg table).data ∧
      "Security Settings".data <:+: (schemaAccessDeniedMsg table).data) ∧
    (canAccessTableAgent config.permissions table schema = true →
      ∃ info, getTableSchema config backend table schema = Except.ok info ∧
        info.name = table ∧ info.schema = schema ∧
        info.columns.map (fun c => c.name) =
          ((backend.tableOf table schema).columns.filter
            (fun col => !(getTablePermission config.permissions table
              schema).blockedColumns.contains col.name)).map (fun col => col.name) ∧
        ∀ c ∈ info.columns,
          c.name ∉ (getTablePermission config.permissions table schema).blockedColumns) := by
  have hmsg : (schemaAccessDeniedMsg table).data =
      "ACCESS_DENIED: You don't have permission to access the table '".data ++
        table.data ++
        ("'. " ++ "This table has been restricted in Security Settings. " ++
         "To access this data, please go to Security Settings to update table permissions, " ++
         "or contact your administrator to request access.").data := by
    show ("ACCESS_DENIED: You don't have permission to access the table '" ++ table ++ "'. " ++
      "This table has been restricted in Security Settings. " ++
      "To access this data, please go to Security Settings to update table permissions, " ++
      "or contact your administrator to request access.").data = _
    simp [String.data_append]
  constructor
  · intro hacc
    refine ⟨?_, ?_, ?_⟩
    · unfold getTableSchema validateSQLIdentifier
      simp [ht, hs, hacc, Bind.bind, Except.bind, throw, throwThe, MonadExceptOf.throw]
    · rw [hmsg]
      exact List.infix_append _ _ _
    · rw [hmsg]
      have hlit : "Security Settings".data <:+:
          ("'. " ++ "This table has been restricted in Security Settings. " ++
           "To access this data, please go to Security Settings to update table permissions, " ++
           "or contact your administrator to request access.").data := by decide
      exact hlit.trans ⟨"ACCESS_DENIED: You don't have permission to access the table '".data ++
        table.data, [], by simp⟩
  · intro hacc
    have hok : getTableSchema config backend table schema =
        Except.ok
          { name := table
            schema := schema
            columns := ((backend.tableOf table schema).columns.filter fun col =>
                !(getTablePermission config.permissions table
                  schema).blockedColumns.contains col.name).map fun col =>
              { name := col.name
                type := col.type
                nullable := col.nullable
                defaultValue := col.defaultValue
                isPrimaryKey := (backend.tableOf table schema).pks.contains col.name
                isForeignKey := ((backend.tableOf table schema).fks.find? fun f =>
                  f.column = col.name).isSome
                references := ((backend.tableOf table schema).fks.find? fun f =>
                  f.column = col.name).map fun f => (f.foreignTable, f.foreignColumn) } } := by
      unfold getTableSchema validateSQLIdentifier
      simp [ht, hs, hacc, Bind.bind, Except.bind, throw, throwThe, MonadExceptOf.throw,
        pure, Except.pure]
    refine ⟨_, hok, rfl, rfl, ?_, ?_⟩
    · simp [List.map_map]
    · intro c hc
      rcases List.mem_map.mp hc with ⟨col, hcol, hceq⟩
      have hpred := (List.mem_filter.mp hcol).2
      have hcn : c.name = col.name := by rw [← hceq]
      rw [hcn]
      simpa using hpred

/-- C4 witness: a blocked column (`ssn` in `blockedColumns`) is removed on
the success path, and a restricted table fails with the `ACCESS_DENIED`
message. -/
theorem getTableSchema_rules_witness :
    (∃ info, getTableSchema
        { permissions := { defaultAccess := AccessLevel.read, tables := [{ table := "users", schema := "public", accessLevel := AccessLevel.read, blockedColumns := ["ssn"] }] } }
        { rows := [], tableOf := fun t s => if t = "users" ∧ s = "public" then { columns := [{ name := "name", type := "text", nullable := false }, { name := "ssn", type := "text", nullable := false }] } else {} }
        "users" "public" = Except.ok info ∧
      info.name = "users" ∧ info.schema = "public" ∧
      info.columns.map (fun c => c.name) = ["name"] ∧
      ∀ c ∈ info.columns, c.name ∉ (["ssn"] : List String)) ∧
    getTableSchema
        { permissions := { defaultAccess := AccessLevel.none, tables := [] } }
        { rows := [] } "users" "public" =
      Except.error (schemaAccessDeniedMsg "users") := by
  constructor
  · obtain ⟨info, hok, hname, hschema, hcols, hblocked⟩ :=
      (getTableSchema_rules
        { permissions := { defaultAccess := AccessLevel.read, tables := [{ table := "users", schema := "public", accessLevel := AccessLevel.read, blockedColumns := ["ssn"] }] } }
        { rows := [], tableOf := fun t s => if t = "users" ∧ s = "public" then { columns := [{ name := "name", type := "text", nullable := false }, { name := "ssn", type := "text", nullable := false }] } else {} }
        "users" "public" (by decide) (by decide)).2 (by decide)
    refine ⟨info, hok, hname, hschema, ?_, ?_⟩
    · rw [hcols]; decide
    · intro c hc
      have hthis := hblocked c hc
      have hbl : (getTablePermission { defaultAccess := AccessLevel.read, tables := [{ table := "users", schema := "public", accessLevel := AccessLevel.read, blockedColumns := ["ssn"] }] } "users" "public").blockedColumns = ["ssn"] := by decide
      rw [hbl] at hthis
      exact hthis
  · exact ((getTableSchema_rules
      { permissions := { defaultAccess := AccessLevel.none, tables := [] } }
      { rows := [] } "users" "public" (by decide) (by decide)).1 (by decide)).1

/-- C7: `handleToolCall` is total and always returns the uniform envelope:
it is exactly the success/error wrapping of the fallible dispatch, so every
exception raised inside a tool's execution path becomes a
`{success:false, error: message}` envelope, a successful call becomes
`{success:true, ...}`, and an unknown tool name yields a failure envelope —
nothing ever propagates to the caller. -/
theorem handleToolCall_envelope (config : SupabaseToolsConfig) (backend : Backend)
    (toolName : String) (toolInput : ToolInput) :
    handleToolCall config backend toolName toolInput =
      toEnvelope (dispatchToolCall config backend toolName toolInput) ∧
    (∀ e, dispatchToolCall config backend toolName toolInput = Except.error e →
      handleToolCall config backend toolName toolInput = ToolResponse.failure e) ∧
    (∀ p, dispatchToolCall config backend toolName toolInput = Except.ok p →
      handleToolCall config backend toolName toolInput = ToolResponse.success p) ∧
    (toolName ∉ (["list_tables", "get_table_schema", "execute_sql"] : List String) →
      handleToolCall config backend toolName toolInput =
        ToolResponse.failure ("Unknown tool: " ++ toolName)) := by
  have heq : handleToolCall config backend toolName toolInput =
      toEnvelope (dispatchToolCall config backend toolName toolInput) := by
    by_cases h1 : toolName = "list_tables"
    · subst h1
      show (match listTables config backend (orPublic toolInput.schema) with
        | Except.ok tables =>
          ToolResponse.success (.tablesList (tables.map fun (t : TableInfo) =>
            (t.name, t.columns.length)))
        | Except.error e => ToolResponse.failure e) = _
      rcases h : listTables config backend (orPublic toolInput.schema) with e | ts <;>
        simp [toEnvelope, dispatchToolCall, h, Except.map]
    · by_cases h2 : toolName = "get_table_schema"
      · subst h2
        show (match getTableSchema config backend ((toolInput.tableName).getD "")
            (orPublic toolInput.schema) with
          | Except.ok tableInfo => ToolResponse.success (.tableSchema tableInfo)
          | Except.error e => ToolResponse.failure e) = _
        rcases h : getTableSchema config backend ((toolInput.tableName).getD "")
            (orPublic toolInput.schema) with e | ti <;>
          simp [toEnvelope, dispatchToolCall, h, Except.map]
      · by_cases h3 : toolName = "execute_sql"
        · subst h3
          show (match executeSQL config ((toolInput.sql).getD "") with
            | Except.ok finalSQL => ToolResponse.success (.queryOk finalSQL)
            | Except.error e => ToolResponse.failure e) = _
          rcases h : executeSQL config ((toolInput.sql).getD "") with e | q <;>
            simp [toEnvelope, dispatchToolCall, h, Except.map]
        · have hh : handleToolCall config backend toolName toolInput =
              ToolResponse.failure ("Unknown tool: " ++ toolName) := by
            unfold handleToolCall
            split
            · exact absurd rfl h1
            · exact absurd rfl h2
            · exact absurd rfl h3
            · rfl
          have hd : dispatchToolCall config backend toolName toolInput =
              Except.error ("Unknown tool: " ++ toolName) := by
            unfold dispatchToolCall
            split
            · exact absurd rfl h1
            · exact absurd rfl h2
            · exact absurd rfl h3
            · rfl
          rw [hh, hd]
          rfl
  refine ⟨heq, ?_, ?_, ?_⟩
  · intro e he
    rw [heq, he]
    rfl
  · intro p hp
    rw [heq, hp]
    rfl
  · intro hunk
    have h1 : toolName ≠ "list_tables" := fun h => hunk (by simp [h])
    have h2 : toolName ≠ "get_table_schema" := fun h => hunk (by simp [h])
    have h3 : toolName ≠ "execute_sql" := fun h => hunk (by simp [h])
    rw [heq]
    have hd : dispatchToolCall config backend toolName toolInput =
        Except.error ("Unknown tool: " ++ toolName) := by
      unfold dispatchToolCall
      split
      · exact absurd rfl h1
      · exact absurd rfl h2
      · exact absurd rfl h3
      · rfl
    rw [hd]
    rfl

/-- C7 witness: an unknown tool name and a failing `execute_sql` call both
come back as failure envelopes; a successful call comes back as a success
envelope. -/
theorem handleToolCall_envelope_witness :
    handleToolCall {} { rows := [] } "frobnicate" {} =
      ToolResponse.failure ("Unknown tool: " ++ "frobnicate") ∧
    (handleToolCall {} { rows := [] } "execute_sql" { sql := some "DROP TABLE t" }).isSuccess =
      false ∧
    (handleToolCall {} { rows := [] } "list_tables" {}).isSuccess = true :=
  ⟨(handleToolCall_envelope {} { rows := [] } "frobnicate" {}).2.2.2 (by decide),
   by
    have h := (handleToolCall_envelope {} { rows := [] } "execute_sql"
      { sql := some "DROP TABLE t" }).2.1
      ("SQL validation failed: SQL contains blocked keyword: DROP. Only SELECT queries are allowed.")
      (by decide)
    rw [h]
    rfl,
   by
    have h := (handleToolCall_envelope {} { rows := [] } "list_tables" {}).2.2.1
      (ToolPayload.tablesList []) (by decide)
    rw [h]
    rfl⟩

theorem findIdxq_none_all {α : Type} {p : α → Bool} {l : List α}
    (h : List.findIdx? p l = Option.none) : ∀ x ∈ l, p x = false := by
  simpa using h

theorem findIdxq_some_facts {α : Type} {p : α → Bool} {l : List α} {k : Nat}
    (h : List.findIdx? p l = some k) :
    ∃ hk : k < l.length, p (l.get ⟨k, hk⟩) = true := by
  induction l generalizing k with
  | nil => simp [List.findIdx?] at h
  | cons a tl ih =>
    rw [List.findIdx?_cons] at h
    by_cases hpa : p a
    · simp only [hpa, if_true, Option.some.injEq] at h
      subst h
      exact ⟨by simp, by simpa using hpa⟩
    · simp only [hpa, if_false] at h
      have h' : ∃ k', List.findIdx? p tl = some k' ∧ k' + 1 = k := by
        simpa using h
      obtain ⟨k', hk', hkk⟩ := h'
      obtain ⟨hlt, hget⟩ := ih hk'
      subst hkk
      exact ⟨by simpa using Nat.succ_lt_succ hlt, by simpa using hget⟩

theorem pairwise_set_of_rel {α : Type} {R : α → α → Prop} {x : α} :
    ∀ {l : List α} {i : Nat} (hp : l.Pairwise R) (hi : i < l.length),
      (∀ y, R (l.get ⟨i, hi⟩) y → R x y) → (∀ y, R y (l.get ⟨i, hi⟩) → R y x) →
      (l.set i x).Pairwise R := by
  intro l
  induction l with
  | nil => intro i hp hi; simp at hi
  | cons a tl ih =>
    intro i hp hi hfwd hbwd
    obtain ⟨ha, htl⟩ := List.pairwise_cons.mp hp
    cases i with
    | zero =>
      rw [List.set_cons_zero]
      exact List.pairwise_cons.mpr ⟨fun y hy => hfwd y (ha y hy), htl⟩
    | succ j =>
      rw [List.set_cons_succ]
      refine List.pairwise_cons.mpr ⟨?_, ?_⟩
      · intro y hy
        rcases List.mem_or_eq_of_mem_set hy with hy' | rfl
        · exact ha y hy'
        · have hj : j < tl.length := by simpa using hi
          have hmem : tl.get ⟨j, hj⟩ ∈ tl := List.get_mem tl j hj
          exact hbwd a (ha _ hmem)
      · have hj : j < tl.length := by simpa using hi
        have hget : (a :: tl).get ⟨j + 1, hi⟩ = tl.get ⟨j, hj⟩ := rfl
        exact ih htl hj (fun y hy => hfwd y (by rw [hget]; exact hy))
          (fun y hy => hbwd y (by rw [hget]; exact hy))

/-- C9 counterexample: the configuration holding only `Users`/`public`
satisfies the case-insensitive one-entry-per-key invariant, but upserting a
permission for `users`/`public` appends instead of replacing — the result
has two entries with the same case-insensitive key. -/
theorem updateTablePermission_ci_invariant_cx :
    CIUniqueKeys ({ defaultAccess := AccessLevel.read, tables := [{ table := "Users", schema := "public", accessLevel := AccessLevel.read }] } : TablePermissionsConfig).tables ∧
    ¬ CIUniqueKeys (updateTablePermission { defaultAccess := AccessLevel.read, tables := [{ table := "Users", schema := "public", accessLevel := AccessLevel.read }] } { table := "users", schema := "public", accessLevel := AccessLevel.none } 1).tables := by
  constructor
  · decide
  · decide

/-- C9 (amended): `updateTablePermission` keys exactly (case-sensitively):
it replaces the entry whose `(table, schema)` strings equal the
permission's, or appends when none does, stamps `updatedAt`, keeps
`defaultAccess`, and preserves at most one entry per exact key (a permission
differing only in letter case is appended alongside the existing entry;
the input value itself is never mutated — the function returns a new
config). -/
theorem updateTablePermission_rules (config : TablePermissionsConfig)
    (permission : TablePermission) (now : Nat)
    (hinv : ExactUniqueKeys config.tables) :
    ExactUniqueKeys (updateTablePermission config permission now).tables ∧
    (updateTablePermission config permission now).updatedAt = now ∧
    (updateTablePermission config permission now).defaultAccess = config.defaultAccess ∧
    ((∀ p ∈ config.tables, ¬(p.table = permission.table ∧ p.schema = permission.schema)) →
      (updateTablePermission config permission now).tables = config.tables ++ [permission]) ∧
    (∀ i, config.tables.findIdx?
        (fun t => t.table = permission.table ∧ t.schema = permission.schema) = some i →
      (updateTablePermission config permission now).tables =
        config.tables.set i permission) := by
  unfold updateTablePermission ExactUniqueKeys at *
  rcases hidx : config.tables.findIdx?
      (fun t => t.table = permission.table ∧ t.schema = permission.schema) with _ | i
  · simp only [hidx]
    refine ⟨?_, by trivial, by trivial, fun _ => by trivial, fun i h => by simp at h⟩
    rw [List.pairwise_append]
    refine ⟨hinv, List.pairwise_singleton _ _, ?_⟩
    intro a ha b hb
    have hb' : b = permission := by simpa using hb
    subst hb'
    have := findIdxq_none_all hidx a ha
    simpa using this
  · simp only [hidx]
    obtain ⟨hlt', hpred⟩ := findIdxq_some_facts hidx
    have hkey : (config.tables.get ⟨i, hlt'⟩).table = permission.table ∧
        (config.tables.get ⟨i, hlt'⟩).schema = permission.schema := by
      simpa using hpred
    refine ⟨?_, by trivial, by trivial, ?_, ?_⟩
    · refine pairwise_set_of_rel hinv hlt' ?_ ?_
      · intro y hgy hpy
        exact hgy ⟨hkey.1.trans hpy.1, hkey.2.trans hpy.2⟩
      · intro y hyg hyp
        exact hyg ⟨hyp.1.trans hkey.1.symm, hyp.2.trans hkey.2.symm⟩
    · intro hforall
      exact absurd hkey (hforall _ (List.get_mem config.tables i hlt'))
    · intro i' h
      have heq : i = i' := by injection h
      rw [← heq]

/-- C9 witness: upserting `orders` into a config holding only `users`
appends it, stamps the timestamp, and the exact-key invariant still
holds. -/
theorem updateTablePermission_rules_witness :
    ExactUniqueKeys (updateTablePermission { defaultAccess := AccessLevel.read, tables := [{ table := "users", schema := "public", accessLevel := AccessLevel.read }] } { table := "orders", schema := "public", accessLevel := AccessLevel.none } 42).tables ∧
    (updateTablePermission { defaultAccess := AccessLevel.read, tables := [{ table := "users", schema := "public", accessLevel := AccessLevel.read }] } { table := "orders", schema := "public", accessLevel := AccessLevel.none } 42).updatedAt = 42 ∧
    (updateTablePermission { defaultAccess := AccessLevel.read, tables := [{ table := "users", schema := "public", accessLevel := AccessLevel.read }] } { table := "orders", schema := "public", accessLevel := AccessLevel.none } 42).tables =
      [{ table := "users", schema := "public", accessLevel := AccessLevel.read }] ++
        [{ table := "orders", schema := "public", accessLevel := AccessLevel.none }] := by
  have h := updateTablePermission_rules
    { defaultAccess := AccessLevel.read, tables := [{ table := "users", schema := "public", accessLevel := AccessLevel.read }] }
    { table := "orders", schema := "public", accessLevel := AccessLevel.none } 42 (by decide)
  exact ⟨h.1, h.2.1, h.2.2.2.1 (by decide)⟩

/-! ## Lemmas for the quoted-identifier extraction gap -/

theorem matchTableRef_none_of_quoted {kw s : List Char} (hkw : kw ≠ [])
    (hq : allRefsQuotedFor kw s = true) :
    ∀ p, prevNonWord s p = true → matchTableRef kw (s.drop p) = Option.none := by
  intro p hpnw
  by_cases hp : p ≤ s.length
  · have hall := List.all_eq_true.mp hq p (List.mem_range.mpr (by omega))
    rw [hpnw] at hall
    simp only [Bool.not_true, Bool.false_or] at hall
    unfold matchTableRef
    rcases hstrip : stripLitCI kw (s.drop p) with _ | afterKw
    · rfl
    · rw [hstrip] at hall
      rw [Option.elim_some] at hall
      rw [Option.some_bind]
      by_cases hws : afterKw.takeWhile isSpaceChar = []
      · rw [if_pos hws]
      · rw [if_neg hws]
        have hne : (afterKw.takeWhile isSpaceChar).isEmpty = false := by
          cases h : afterKw.takeWhile isSpaceChar with
          | nil => exact absurd h hws
          | cons a as => simp [List.isEmpty]
        rw [hne] at hall
        simp only [Bool.false_or, beq_iff_eq] at hall
        have hdw : ∃ rest, afterKw.dropWhile isSpaceChar = '"' :: rest := by
          rcases hh : afterKw.dropWhile isSpaceChar with _ | ⟨c, rest⟩
          · rw [hh] at hall; simp at hall
          · rw [hh] at hall
            have : c = '"' := by simpa using hall
            exact ⟨rest, by rw [this]⟩
        obtain ⟨rest, hrest⟩ := hdw
        rw [hrest]
        have hti : takeIdent ('"' :: rest) = Option.none := by
          unfold takeIdent
          simp [isIdentStart]
        rw [hti, Option.none_bind]
  · have hdrop : s.drop p = [] := List.drop_eq_nil_of_le (by omega)
    rw [hdrop]
    unfold matchTableRef
    rcases kw with _ | ⟨k, ks⟩
    · exact absurd rfl hkw
    · rfl

theorem scanTableRefs_nil_of_no_match {kw s : List Char}
    (hnone : ∀ p, prevNonWord s p = true → matchTableRef kw (s.drop p) = Option.none) :
    ∀ fuel p, scanTableRefs kw fuel (!prevNonWord s p) (s.drop p) = [] := by
  intro fuel
  induction fuel with
  | zero => intro p; simp [scanTableRefs]
  | succ n ih =>
    intro p
    rcases hdrop : s.drop p with _ | ⟨c, cs⟩
    · simp [scanTableRefs]
    · have hget : s.get? p = some c := by
        have h1 : (s.drop p).head? = some c := by rw [hdrop]; rfl
        rw [List.head?_drop] at h1
        rw [List.get?_eq_getElem?]
        exact h1
      have hcs : s.drop (p + 1) = cs := by
        have h1 : (s.drop p).tail = cs := by rw [hdrop]; rfl
        rw [List.tail_drop] at h1
        exact h1
      have hpnw1 : prevNonWord s (p + 1) = !isWordChar c := by
        show (match s.get? p with
          | some d => !isWordChar d
          | Option.none => true) = !isWordChar c
        rw [hget]
      have hnext : (!prevNonWord s (p + 1)) = isWordChar c := by
        rw [hpnw1, Bool.not_not]
      cases hb : prevNonWord s p with
      | false =>
        simp only [hb, Bool.not_false, scanTableRefs, if_true]
        rw [← hnext, ← hcs]
        exact ih (p + 1)
      | true =>
        have hm := hnone p hb
        rw [hdrop] at hm
        simp only [hb, Bool.not_true, scanTableRefs, if_false, hm]
        rw [← hnext, ← hcs]
        exact ih (p + 1)

theorem extractTables_nil_of_quoted {sql : String}
    (hq : allRefsQuoted sql.data = true) : extractTablesFromSQL sql = [] := by
  have hq2 := Bool.and_eq_true _ _ ▸ hq
  obtain ⟨hfrom, hjoin⟩ : allRefsQuotedFor "from".data sql.data = true ∧
      allRefsQuotedFor "join".data sql.data = true := by
    constructor
    · exact (Bool.and_eq_true _ _).mp hq |>.1
    · exact (Bool.and_eq_true _ _).mp hq |>.2
  have hscanF := scanTableRefs_nil_of_no_match
    (matchTableRef_none_of_quoted (by decide) hfrom) (sql.data.length + 1) 0
  have hscanJ := scanTableRefs_nil_of_no_match
    (matchTableRef_none_of_quoted (by decide) hjoin) (sql.data.length + 1) 0
  have h0 : (!prevNonWord sql.data 0) = false := by
    unfold prevNonWord
    rfl
  rw [h0, List.drop_zero] at hscanF hscanJ
  unfold extractTablesFromSQL
  rw [hscanF, hscanJ]
  rfl

/-- C10: in the agent package, a query whose FROM/JOIN table references are
all double-quoted slips past the permission layer: the extractor returns no
tables, `validateTableAccess` reports `allowed` with no blocked tables, and
a safety-valid query of this class reaches execution — whatever the
configured access levels say. -/
theorem quoted_tables_bypass (config : SupabaseToolsConfig) (sql : String)
    (hq : allRefsQuoted sql.data = true) :
    extractTablesFromSQL sql = [] ∧
    validateTableAccess config.permissions sql =
      { allowed := true, blockedTables := [] } ∧
    ((validateSQL sql).valid = true →
      executeSQL config sql =
        Except.ok (addDefaultLimit (sanitizeSQL sql) config.maxRows)) := by
  have hext := extractTables_nil_of_quoted hq
  have hacc : validateTableAccess config.permissions sql =
      { allowed := true, blockedTables := [] } := by
    unfold validateTableAccess
    rw [hext]
    rfl
  refine ⟨hext, hacc, ?_⟩
  intro hv
  unfold executeSQL
  simp [hv, hacc, Bind.bind, Except.bind, pure, Except.pure]

/-- C10 witness: `SELECT * FROM "users"` extracts nothing and executes
row-capped even though `users` is configured with access level `none`. -/
theorem quoted_tables_bypass_witness :
    allRefsQuoted ("SELECT * FROM \"users\"").data = true ∧
    canAccessTableAgent { defaultAccess := AccessLevel.read, tables := [{ table := "users", schema := "public", accessLevel := AccessLevel.none }] } "users" "public" = false ∧
    executeSQL { permissions := { defaultAccess := AccessLevel.read, tables := [{ table := "users", schema := "public", accessLevel := AccessLevel.none }] } } "SELECT * FROM \"users\"" =
      Except.ok "SELECT * FROM \"users\" LIMIT 1000" := by
  refine ⟨by decide, by decide, ?_⟩
  have h := (quoted_tables_bypass
    { permissions := { defaultAccess := AccessLevel.read, tables := [{ table := "users", schema := "public", accessLevel := AccessLevel.none }] } }
    "SELECT * FROM \"users\"" (by decide)).2.2 (by decide)
  rw [h]
  decide

/-! ## Lemmas about the streaming loop -/

theorem toolUseEvents_no_terminal (c : SupabaseToolsConfig) (b : Backend) (t : ToolUse) :
    ∀ e ∈ toolUseEvents c b t, e.type ≠ EvType.done ∧ e.type ≠ EvType.error := by
  intro e he
  unfold toolUseEvents at he
  simp only [List.mem_append] at he
  rcases he with ((h1 | h2) | h3) | h4
  · have he' : e = ⟨EvType.toolCall, t.name⟩ := by simpa using h1
    subst he'
    exact ⟨by simp, by simp⟩
  · by_cases hn : t.name = "execute_sql"
    · rw [if_pos hn] at h2
      have he' : e = ⟨EvType.sql, (t.input.sql).getD ""⟩ := by simpa using h2
      subst he'
      exact ⟨by simp, by simp⟩
    · rw [if_neg hn] at h2
      simp at h2
  · have he' : e = ⟨EvType.toolResult,
        toolResultContent (handleToolCall c b t.name t.input)⟩ := by simpa using h3
    subst he'
    exact ⟨by simp, by simp⟩
  · by_cases hd : hasDataPayload (handleToolCall c b t.name t.input)
    · rw [if_pos hd] at h4
      have he' : e = ⟨EvType.data, "Query executed successfully"⟩ := by simpa using h4
      subst he'
      exact ⟨by simp, by simp⟩
    · rw [if_neg hd] at h4
      simp at h4

theorem blockEvents_no_terminal (parsed : ParsedBlocks) :
    ∀ e ∈ blockEvents parsed, e.type ≠ EvType.done ∧ e.type ≠ EvType.error := by
  intro e he
  unfold blockEvents at he
  simp only [List.mem_append] at he
  rcases he with (h1 | h2) | h3
  · rcases hi : parsed.insights with _ | k
    · rw [hi] at h1; simp [Option.toList] at h1
    · rw [hi] at h1
      have he' : e = ⟨EvType.insights, k⟩ := by simpa [Option.toList] using h1
      subst he'
      exact ⟨by simp, by simp⟩
  · rcases hi : parsed.chart with _ | cc
    · rw [hi] at h2; simp [Option.toList] at h2
    · rw [hi] at h2
      have he' : e = ⟨EvType.chart, cc⟩ := by simpa [Option.toList] using h2
      subst he'
      exact ⟨by simp, by simp⟩
  · rcases hi : parsed.permissionDenied with _ | m
    · rw [hi] at h3; simp [Option.toList] at h3
    · rw [hi] at h3
      have he' : e = ⟨EvType.permissionDenied, m⟩ := by simpa [Option.toList] using h3
      subst he'
      exact ⟨by simp, by simp⟩

theorem chatLoop_no_terminal (c : SupabaseToolsConfig) (b : Backend)
    (script : Nat → ModelTurn) :
    ∀ rem i, ∀ e ∈ (chatLoop c b script i rem).1,
      e.type ≠ EvType.done ∧ e.type ≠ EvType.error := by
  intro rem
  induction rem with
  | zero => intro i e he; simp [chatLoop] at he
  | succ n ih =>
    intro i e he
    unfold chatLoop at he
    split at he
    · simp at he
    · rename_i deltas parsed tools endTurn heq
      split at he
      · simp only [List.mem_append] at he
        rcases he with ((htext | hblock) | hflat) | herec
        · rcases List.mem_map.mp htext with ⟨d, -, hde⟩
          subst hde
          exact ⟨by simp, by simp⟩
        · exact blockEvents_no_terminal parsed e hblock
        · rcases List.mem_flatMap.mp hflat with ⟨t, -, hte⟩
          exact toolUseEvents_no_terminal c b t e hte
        · exact ih (i + 1) e herec
      · simp only [List.mem_append] at he
        rcases he with (htext | hblock) | hflat
        · rcases List.mem_map.mp htext with ⟨d, -, hde⟩
          subst hde
          exact ⟨by simp, by simp⟩
        · exact blockEvents_no_terminal parsed e hblock
        · rcases List.mem_flatMap.mp hflat with ⟨t, -, hte⟩
          exact toolUseEvents_no_terminal c b t e hte

theorem chatLoop_calls_le (c : SupabaseToolsConfig) (b : Backend)
    (script : Nat → ModelTurn) :
    ∀ rem i, (chatLoop c b script i rem).2.2 ≤ rem := by
  intro rem
  induction rem with
  | zero => intro i; simp [chatLoop]
  | succ n ih =>
    intro i
    unfold chatLoop
    split
    · simp
    · split
      · have := ih (i + 1)
        simp only []
        omega
      · simp

/-- C8 counterexample: when the first model call fails, the route stream is
a single `error` event and nothing else — no `done` event follows it, so
the claim that every turn's stream ends with exactly one `done` (with
failures surfaced as `error` followed by `done`) is false. -/
theorem chatStream_error_drops_done_cx :
    routeEvents {} { rows := [] } 10 (fun _ => ModelTurn.failure "model call failed") =
      [{ type := EvType.error, content := "model call failed" }] ∧
    (routeEvents {} { rows := [] } 10 (fun _ => ModelTurn.failure "model call failed")).all
      (fun e => !(e.type == EvType.done)) = true := by
  constructor <;> decide

/-- C8 (amended): every turn makes at most `maxIterations` model calls;
a turn in which no model call fails (including one stopped by the
iteration cap) emits exactly one `done` event, as its final event; a turn
in which a model call fails instead ends with a single `error` event as
its final event, with no `done` anywhere in the stream. -/
theorem chatStream_turn_rules (config : SupabaseToolsConfig) (backend : Backend)
    (maxIterations : Nat) (script : Nat → ModelTurn) :
    modelCalls config backend maxIterations script ≤ maxIterations ∧
    (∀ evs calls,
      chatStreamRun config backend maxIterations script = (evs, Option.none, calls) →
      routeEvents config backend maxIterations script = evs ∧
      evs.getLast? = some ⟨EvType.done, "Analysis complete"⟩ ∧
      (evs.filter fun e => e.type == EvType.done).length = 1) ∧
    (∀ evs m calls,
      chatStreamRun config backend maxIterations script = (evs, some m, calls) →
      routeEvents config backend maxIterations script = evs ++ [⟨EvType.error, m⟩] ∧
      (routeEvents config backend maxIterations script).getLast? =
        some ⟨EvType.error, m⟩ ∧
      ((routeEvents config backend maxIterations script).filter
        fun e => e.type == EvType.done).length = 0) := by
  rcases hr : chatLoop config backend script 0 maxIterations with ⟨levs, lexn, lcalls⟩
  have hnoterm : ∀ e ∈ levs, e.type ≠ EvType.done ∧ e.type ≠ EvType.error := by
    have h := chatLoop_no_terminal config backend script maxIterations 0
    rw [hr] at h
    exact h
  have hfilter : (levs.filter fun e => e.type == EvType.done) = [] := by
    apply List.filter_eq_nil_iff.mpr
    intro e he
    simp [(hnoterm e he).1]
  have hcalls : lcalls ≤ maxIterations := by
    have h := chatLoop_calls_le config backend script maxIterations 0
    rw [hr] at h
    exact h
  refine ⟨?_, ?_, ?_⟩
  · rcases lexn with _ | m
    · have hsr : chatStreamRun config backend maxIterations script =
          (levs ++ [⟨EvType.done, "Analysis complete"⟩], Option.none, lcalls) := by
        unfold chatStreamRun
        rw [hr]
      unfold modelCalls
      rw [hsr]
      simpa using hcalls
    · have hsr : chatStreamRun config backend maxIterations script =
          (levs, some m, lcalls) := by
        unfold chatStreamRun
        rw [hr]
      unfold modelCalls
      rw [hsr]
      simpa using hcalls
  · intro evs calls h
    unfold chatStreamRun at h
    rw [hr] at h
    rcases lexn with _ | m
    · have hevs : levs ++ [⟨EvType.done, "Analysis complete"⟩] = evs := by
        have := congrArg Prod.fst h
        simpa using this
      subst hevs
      refine ⟨?_, ?_, ?_⟩
      · unfold routeEvents chatStreamRun
        rw [hr]
      · simp [List.getLast?_concat]
      · rw [List.filter_append, hfilter]
        rfl
    · exact absurd (congrArg (fun x => x.2.1) h) (by simp)
  · intro evs m calls h
    unfold chatStreamRun at h
    rw [hr] at h
    rcases lexn with _ | m'
    · exact absurd (congrArg (fun x => x.2.1) h) (by simp)
    · have hevs : levs = evs := by
        have := congrArg Prod.fst h
        simpa using this
      have hm : m' = m := by
        have := congrArg (fun x => x.2.1) h
        simpa using this
      subst hevs
      subst hm
      have hroute : routeEvents config backend maxIterations script =
          levs ++ [⟨EvType.error, m'⟩] := by
        unfold routeEvents chatStreamRun
        rw [hr]
      refine ⟨hroute, ?_, ?_⟩
      · rw [hroute]
        simp [List.getLast?_concat]
      · rw [hroute, List.filter_append, hfilter]
        rfl

/-- C8 witness: a one-reply script with `end_turn` yields exactly the text
event followed by `done` as the final event, within the call cap. -/
theorem chatStream_turn_rules_witness :
    chatStreamRun {} { rows := [] } 10 (fun _ => ModelTurn.reply ["hi"] {} [] true) =
      ([⟨EvType.text, "hi"⟩, ⟨EvType.done, "Analysis complete"⟩], Option.none, 1) ∧
    routeEvents {} { rows := [] } 10 (fun _ => ModelTurn.reply ["hi"] {} [] true) =
      [⟨EvType.text, "hi"⟩, ⟨EvType.done, "Analysis complete"⟩] ∧
    modelCalls {} { rows := [] } 10 (fun _ => ModelTurn.reply ["hi"] {} [] true) ≤ 10 :=
  ⟨by decide,
   ((chatStream_turn_rules {} { rows := [] } 10
      (fun _ => ModelTurn.reply ["hi"] {} [] true)).2.1
      [⟨EvType.text, "hi"⟩, ⟨EvType.done, "Analysis complete"⟩] 1 (by decide)).1,
   (chatStream_turn_rules {} { rows := [] } 10
      (fun _ => ModelTurn.reply ["hi"] {} [] true)).1⟩

end Analytique
